import Mathlib

/-!
Verification of the PW-Airport correlation bus and route orchestrator
(`src/bus.py`, `src/server.py`) via a shallow embedding in Lean.

The bus reader (`Bus._reader`) dispatches JSON frames to pending-query /
pending-ack tables (Python dicts from message-id strings to asyncio futures)
and an event backlog.  The orchestrator (`handler` in `src/server.py`)
maintains a bounded active pool and runs a fill / poll / drain / pause tick.
-/

namespace PWAirport

open List

/-- The result of `json.loads`: a JSON value. Numbers are modelled as
rationals (Python floats carry no claim-relevant rounding here). -/
inductive Json where
  | null : Json
  | bool (b : Bool) : Json
  | num (q : ℚ) : Json
  | str (s : String) : Json
  | arr (xs : List Json) : Json
  | obj (fields : List (String × Json)) : Json

/-- Python truthiness of a JSON value (`if ref:` in `Bus._reader`). -/
def Json.truthy : Json → Bool
  | .null => false
  | .bool b => b
  | .num q => q != 0
  | .str s => s != ""
  | .arr xs => !xs.isEmpty
  | .obj fs => !fs.isEmpty

/-- Whether a JSON value is hashable as a Python dict key
(`dict.pop(key, None)` raises `TypeError` on lists and dicts). -/
def Json.hashable : Json → Bool
  | .arr _ => false
  | .obj _ => false
  | _ => true

/-- `msg.get(k)`: the value at key `k`, or `null` (Python `None`) if absent.
Python dicts produced by `json.loads` have unique keys; lookup takes the
first occurrence. -/
def getField (fields : List (String × Json)) (k : String) : Json :=
  match fields.lookup k with
  | some v => v
  | none => .null

/-- An asyncio future registered in a pending table: an identity and a
`done` flag (`fut.done()` is true once resolved or cancelled). -/
structure Handle where
  hid : Nat
  done : Bool
deriving DecidableEq

/-- A pending table: Python dict from message-id string to future. -/
abbrev Table := List (String × Handle)

/-- `table.pop(k, None)`: the entry at `k`, if any, and the table without
that key (a Python dict holds each key at most once). -/
def popT {β : Type} (t : List (String × β)) (k : String) : Option β × List (String × β) :=
  (t.lookup k, t.filter (fun e => e.1 ≠ k))

/-- `table[k] = v`: insert or overwrite. -/
def insT {β : Type} (t : List (String × β)) (k : String) (v : β) : List (String × β) :=
  (k, v) :: t.filter (fun e => e.1 ≠ k)

/-- State of one `Bus`'s reader-visible data: the two pending tables,
the event backlog (`self.events`, FIFO), a log of resolutions
(`fut.set_result(msg)` calls, as handle-id / frame pairs), and whether the
reader task has died from an uncaught exception. -/
structure RState where
  pq : Table
  pa : Table
  events : List Json
  log : List (Nat × Json)
  crashed : Bool

/-- The initial reader state of a fresh `Bus`. -/
def RState.init : RState := ⟨[], [], [], [], false⟩

/-- Dispatch of one decoded JSON object by `Bus._reader` (`src/bus.py`
lines 32-47): `response` frames pop the pending-query table and resolve a
not-yet-done future; `event` frames pop the pending-ack table when
`ref_msg_id` is truthy, resolving a not-yet-done future, and otherwise go
to the event backlog.  An unhashable dict key (`pop` on a list/object
value) raises `TypeError`, crashing the reader task. -/
def dispatchResponse (s : RState) (fields : List (String × Json)) : RState :=
  let mid := getField fields "msg_id"
  if mid.hashable then
    match mid with
    | .str m =>
      let (fut, pq') := popT s.pq m
      match fut with
      | some h =>
        if h.done then { s with pq := pq' }
        else { s with pq := pq', log := s.log ++ [(h.hid, .obj fields)] }
      | none => { s with pq := pq' }
    | _ => s
  else { s with crashed := true }

/-- The `event` branch of the dispatch (`src/bus.py` lines 40-47). -/
def dispatchEvent (s : RState) (fields : List (String × Json)) : RState :=
  let ref := getField fields "ref_msg_id"
  if ref.truthy then
    if ref.hashable then
      match ref with
      | .str m =>
        let (fut, pa') := popT s.pa m
        match fut with
        | some h =>
          if h.done then { s with pa := pa', events := s.events ++ [.obj fields] }
          else { s with pa := pa', log := s.log ++ [(h.hid, .obj fields)] }
        | none => { s with pa := pa', events := s.events ++ [.obj fields] }
      | _ => { s with events := s.events ++ [.obj fields] }
    else { s with crashed := true }
  else { s with events := s.events ++ [.obj fields] }

def dispatchObj (s : RState) (fields : List (String × Json)) : RState :=
  match getField fields "type" with
  | .str t =>
    if t = "response" then dispatchResponse s fields
    else if t = "event" then dispatchEvent s fields
    else s
  | _ => s

/-- One raw inbound frame, as seen after `json.loads`: either the parse
failed, or it produced a JSON value. -/
inductive RawFrame where
  | badJson : RawFrame
  | good (j : Json) : RawFrame

/-- One iteration of the reader loop on one raw frame: a parse failure is
silently skipped (`except Exception: continue`); a parsed non-object
crashes the reader (`msg.get` raises `AttributeError` on a non-dict);
a parsed object is dispatched.  A crashed reader processes nothing. -/
def readerStep (s : RState) (f : RawFrame) : RState :=
  if s.crashed then s
  else
    match f with
    | .badJson => s
    | .good (.obj fields) => dispatchObj s fields
    | .good _ => { s with crashed := true }

/-- The reader loop over a finite inbound frame sequence. -/
def runReader (s : RState) (fs : List RawFrame) : RState :=
  fs.foldl readerStep s

/-- A `Bus` as the callers and `stop()` see it: the reader-visible state
plus whether the reader task has been cancelled by `Bus.stop`. -/
structure BState where
  r : RState
  stopped : Bool

/-- `Bus.stop` (`src/bus.py` lines 16-23): cancel the reader task and await
it, swallowing the cancellation.  It touches neither pending table, the
backlog, nor any suspended caller's future. -/
def busStop (b : BState) : BState :=
  { b with stopped := true }

/-- Inbound frames processed through a `Bus`: after `stop()` the reader
task is cancelled, so no frame is ever dispatched. -/
def runBus (b : BState) (fs : List RawFrame) : BState :=
  if b.stopped then b else { b with r := runReader b.r fs }

/-- An interleaving step visible to the pending tables: a reader dispatch
(`frame`), a caller registering a fresh future (`send_query` /
`send_cmd_wait_ack` doing `table[mid] = fut`), or a caller's task being
cancelled while suspended, which marks its future done without removing
the table entry. -/
inductive Action where
  | frame (f : RawFrame)
  | regQuery (m : String) (hid : Nat)
  | regAck (m : String) (hid : Nat)
  | cancel (hid : Nat)

/-- Mark the future with identity `hid` done (task cancellation). -/
def markDone (t : Table) (hid : Nat) : Table :=
  t.map (fun e => if e.2.hid = hid then (e.1, { e.2 with done := true }) else e)

/-- One interleaved step.  Registrations and cancellations are caller-side
and happen even after a reader crash; frames are reader-side. -/
def actionStep (s : RState) (a : Action) : RState :=
  match a with
  | .frame f => readerStep s f
  | .regQuery m hid => { s with pq := insT s.pq m ⟨hid, false⟩ }
  | .regAck m hid => { s with pa := insT s.pa m ⟨hid, false⟩ }
  | .cancel hid => { s with pq := markDone s.pq hid, pa := markDone s.pa hid }

/-- A finite interleaving of reader dispatches and caller-side steps. -/
def runActions (s : RState) (as : List Action) : RState :=
  as.foldl actionStep s

/-! ## Command/Query client (`query_position`, `src/server.py` 150-155) -/

/-- The response frame as `query_position` inspects it.  Per the envelope
data model the `error` field is an optional string; `result` and `t_sim`
are arbitrary JSON values or absent. -/
structure RespFrame where
  msg_id : String
  error : Option String
  result : Option Json
  t_sim : Option Json

/-- The outcome of `query_position` on a response frame: `remoteErr` is the
`RuntimeError` raised on a truthy `error` field; `keyErr` is the `KeyError`
from `resp["result"]` when no `result` key exists; `ok` carries
`(resp["result"], resp.get("t_sim"))`. -/
inductive QPOut where
  | remoteErr (e : String)
  | keyErr
  | ok (result : Json) (t_sim : Option Json)

/-- `query_position` after its response future resolves (`src/server.py`
lines 153-155): raise on truthy `error`, else return `result` and
`t_sim`. -/
def query_position_outcome (r : RespFrame) : QPOut :=
  match r.error with
  | some e =>
    if e ≠ "" then .remoteErr e
    else
      match r.result with
      | some res => .ok res r.t_sim
      | none => .keyErr
  | none =>
    match r.result with
    | some res => .ok res r.t_sim
    | none => .keyErr

/-- The wire object of a response frame, as the reader dispatches it. -/
def respFields (r : RespFrame) : List (String × Json) :=
  [("type", .str "response"), ("msg_id", .str r.msg_id)]
    ++ (match r.error with | some e => [("error", .str e)] | none => [])
    ++ (match r.result with | some j => [("result", j)] | none => [])
    ++ (match r.t_sim with | some j => [("t_sim", j)] | none => [])

/-! ## Route orchestrator (`handler`, `src/server.py` 213-278) -/

/-- The shipped target set (`src/server.py` line 18). -/
def TARGETS : List String := ["CUBE_1", "CUBE_2", "CUBE_3"]

/-- The shipped pool bound (`src/server.py` line 19). -/
def CONCURRENCY : Nat := 2

/-- One active-pool record: `{"cmd_id": ..., "last_t_sim": ...}`. -/
structure RouteRec where
  cmd_id : String
  last_t_sim : Option ℚ
deriving DecidableEq

/-- Orchestrator state local to `handler`: the active pool (dict from
`target_id` to its record) and the `recently_used` single-slot memory. -/
structure OrchState where
  active : List (String × RouteRec)
  recently_used : Option String
deriving DecidableEq

/-- The pool's key set (`t in active` tests membership here). -/
def OrchState.keys (s : OrchState) : List String :=
  s.active.map Prod.fst

/-- The empty pool `handler` starts from. -/
def OrchState.init : OrchState := ⟨[], none⟩

/-- The fill step's candidate list (`src/server.py` lines 227-228):
`[t for t in TARGETS if t not in active and t != recently_used] or
 [t for t in TARGETS if t not in active] or TARGETS`
(Python `or` takes the first non-empty list). -/
def candidates (targets : List String) (s : OrchState) : List String :=
  let c1 := targets.filter (fun t => decide (t ∉ s.keys ∧ some t ≠ s.recently_used))
  let c2 := targets.filter (fun t => decide (t ∉ s.keys))
  if !c1.isEmpty then c1 else if !c2.isEmpty then c2 else targets

/-- The outcome the environment hands one fill iteration: which candidate
`random.choice` picks (an index), and whether the
`query_position` / `start_route` pair succeeds (with the resulting
`cmd_id` and `start_t_sim`) or raises. -/
structure FillAttempt where
  pick : Nat
  outcome : Option (String × Option ℚ)

/-- The target `random.choice(candidates)` selects, and for which the fill
iteration then issues `get.position` followed by `set.route`. -/
def chosenTarget (targets : List String) (s : OrchState) (a : FillAttempt) : String :=
  let cs := candidates targets s
  cs.getD (a.pick % cs.length) ""

/-- One iteration of the fill `while` loop (`src/server.py` 226-241):
on failure the candidate is only remembered as `recently_used`; on success
it is inserted into the pool and remembered. -/
def fillStep (targets : List String) (s : OrchState) (a : FillAttempt) : OrchState :=
  let tgt := chosenTarget targets s a
  match a.outcome with
  | none => { s with recently_used := some tgt }
  | some (cid, ts) =>
    { active := insT s.active tgt ⟨cid, ts⟩, recently_used := some tgt }

/-- The fill `while` loop: iterate while `len(active) < CONCURRENCY`,
over a finite trace of attempt outcomes. -/
def fillLoop (C : Nat) (targets : List String) : OrchState → List FillAttempt → OrchState
  | s, [] => s
  | s, a :: as => if s.active.length < C then fillLoop C targets (fillStep targets s a) as else s

/-- The poll pass (`src/server.py` 244-254): each pooled target's
`last_t_sim` is updated when its `query_position` task succeeded
(`f t = some ts`); a failed poll (`f t = none`) leaves its record alone.
Pool membership never changes. -/
def pollPass (f : String → Option (Option ℚ)) (s : OrchState) : OrchState :=
  { s with active := s.active.map (fun e =>
      match f e.1 with
      | some ts => (e.1, { e.2 with last_t_sim := ts })
      | none => e) }

/-- Draining one backlog frame (`src/server.py` 262-268): only a
`route.complete` event whose `target_id` is a pool key removes that key;
every other frame leaves the pool untouched. -/
def drainOne (s : OrchState) (ev : Json) : OrchState :=
  match ev with
  | .obj fields =>
    match getField fields "event" with
    | .str k =>
      if k = "route.complete" then
        match getField fields "target_id" with
        | .str tid =>
          if (s.active.lookup tid).isSome then
            { s with active := (popT s.active tid).2 }
          else s
        | _ => s
      else s
    | _ => s
  | _ => s

/-- The environment of one tick: the fill trace, the poll outcomes, and
the drained backlog frames. -/
structure TickOracle where
  attempts : List FillAttempt
  poll : String → Option (Option ℚ)
  events : List Json

/-- One tick of the orchestrator loop: fill, poll, drain (the trailing
`asyncio.sleep` pause does not touch the state). -/
def tick (C : Nat) (targets : List String) (s : OrchState) (o : TickOracle) : OrchState :=
  o.events.foldl drainOne (pollPass o.poll (fillLoop C targets s o.attempts))

/-- Any number of ticks from a given state. -/
def runTicks (C : Nat) (targets : List String) (s : OrchState) (os : List TickOracle) : OrchState :=
  os.foldl (tick C targets) s

/-! ## Waypoint builder (`build_waypoints`, `src/server.py` 21-51) -/

/-- A 3D position `{"x": ..., "y": ..., "z": ...}`. -/
structure Pos where
  x : ℚ
  y : ℚ
  z : ℚ
deriving DecidableEq

/-- The shipped offset table (`src/server.py` lines 21-27): per segment a
total displacement and a step count. -/
def WAYPOINT_OFFSETS : List (ℚ × ℚ × ℚ × ℕ) :=
  [(0, 0, -30, 12), (-110, 0, 0, 18), (0, 0, 120, 20), (150, 0, 0, 22), (1000, 150, 0, 24)]

/-- The inner `for _ in range(steps)` loop: advance `steps` times by the
per-step increment, collecting each visited point, and return the final
cursor. -/
def runSteps (sx sy sz : ℚ) : ℕ → Pos → List Pos × Pos
  | 0, cur => ([], cur)
  | n + 1, cur =>
    let c : Pos := ⟨cur.x + sx, cur.y + sy, cur.z + sz⟩
    let (ps, fin) := runSteps sx sy sz n c
    (c :: ps, fin)

/-- The outer loop over the offset table. -/
def buildSegs : List (ℚ × ℚ × ℚ × ℕ) → Pos → List Pos
  | [], _ => []
  | (dx, dy, dz, steps) :: rest, cur =>
    let (ps, fin) := runSteps (dx / (steps : ℚ)) (dy / (steps : ℚ)) (dz / (steps : ℚ)) steps cur
    ps ++ buildSegs rest fin

/-- `build_waypoints` (`src/server.py` 30-51): the start position followed
by every cumulative step of every offset segment. -/
def build_waypoints (start_pos : Pos) : List Pos :=
  start_pos :: buildSegs WAYPOINT_OFFSETS start_pos

/-! ## Bookkeeping for the resolution-correctness claims -/

/-- The handle identities of a pending table, in order. -/
def hids (t : Table) : List Nat :=
  t.map (fun e => e.2.hid)

/-- The query registrations of an interleaving: `(hid, msg_id)` pairs. -/
def regQs (as : List Action) : List (Nat × String) :=
  as.filterMap (fun a =>
    match a with
    | .regQuery m hid => some (hid, m)
    | _ => none)

/-- The ack registrations of an interleaving: `(hid, msg_id)` pairs. -/
def regAs (as : List Action) : List (Nat × String) :=
  as.filterMap (fun a =>
    match a with
    | .regAck m hid => some (hid, m)
    | _ => none)

/-- Every handle identity registered in an interleaving. -/
def regIds (as : List Action) : List Nat :=
  as.filterMap (fun a =>
    match a with
    | .regQuery _ hid => some hid
    | .regAck _ hid => some hid
    | _ => none)

/-- Every handle identity a state mentions (log and both tables). -/
def stateHids (s : RState) : List Nat :=
  s.log.map Prod.fst ++ hids s.pq ++ hids s.pa

/-- A correct resolution: the resolved handle was registered (per `Rq` /
`Ra`) under exactly the correlation id the frame carries (`msg_id` for a
response, `ref_msg_id` for an event). -/
def LogP (Rq Ra : Nat → String → Prop) (p : Nat × Json) : Prop :=
  (∃ m fields, p.2 = .obj fields ∧ Rq p.1 m ∧ getField fields "msg_id" = .str m) ∨
  (∃ m fields, p.2 = .obj fields ∧ Ra p.1 m ∧ getField fields "ref_msg_id" = .str m)

/-- The reader/caller invariant: table entries carry handles registered
under their own key, every logged resolution is correct, no handle
identity occurs twice across the log and the two tables. -/
structure Inv (Rq Ra : Nat → String → Prop) (s : RState) : Prop where
  hq : ∀ p ∈ s.pq, Rq p.2.hid p.1
  ha : ∀ p ∈ s.pa, Ra p.2.hid p.1
  hlog : ∀ p ∈ s.log, LogP Rq Ra p
  nodupHids : (stateHids s).Nodup

/-! ## General lemmas on association tables -/

theorem lookup_cons_ne {β : Type} {k m : String} (v : β) (t : List (String × β)) (h : m ≠ k) :
    ((k, v) :: t).lookup m = t.lookup m := by
  simp only [List.lookup]
  rw [beq_eq_false_iff_ne.mpr h]

theorem lookup_cons_self {β : Type} (k : String) (v : β) (t : List (String × β)) :
    ((k, v) :: t).lookup k = some v := by
  simp only [List.lookup, beq_self_eq_true]

theorem lookup_filterOut {β : Type} (t : List (String × β)) (k : String) :
    (t.filter (fun e => e.1 ≠ k)).lookup k = none := by
  induction t with
  | nil => rfl
  | cons e t ih =>
    obtain ⟨k', v⟩ := e
    by_cases h : k' = k
    · rw [List.filter_cons, if_neg (by simp [h])]
      exact ih
    · rw [List.filter_cons, if_pos (by simp [h])]
      rw [lookup_cons_ne v _ (fun hk => h hk.symm)]
      exact ih

theorem mem_of_lookup {β : Type} {t : List (String × β)} {m : String} {v : β}
    (h : t.lookup m = some v) : (m, v) ∈ t := by
  induction t with
  | nil => simp [List.lookup] at h
  | cons e t ih =>
    obtain ⟨k, w⟩ := e
    by_cases hk : m = k
    · subst hk
      rw [lookup_cons_self] at h
      cases h
      exact List.mem_cons_self _ _
    · rw [lookup_cons_ne w t hk] at h
      exact List.mem_cons_of_mem _ (ih h)

theorem filter_eq_of_lookup_none {β : Type} {t : List (String × β)} {k : String}
    (h : t.lookup k = none) : t.filter (fun e => e.1 ≠ k) = t := by
  induction t with
  | nil => rfl
  | cons e t ih =>
    obtain ⟨k', v⟩ := e
    by_cases hk : k = k'
    · subst hk
      rw [lookup_cons_self] at h
      cases h
    · rw [lookup_cons_ne v t hk] at h
      rw [List.filter_cons, if_pos (by simp; exact fun he => hk he.symm), ih h]

theorem subperm_nodup {α : Type} {l₁ l₂ : List α} (h : l₁ <+~ l₂) (hn : l₂.Nodup) : l₁.Nodup := by
  obtain ⟨l, hp, hs⟩ := h
  exact hp.nodup_iff.mp (hn.sublist hs)

theorem subperm_app_left {α : Type} {l₁ l₂ : List α} (r : List α) (h : l₁ <+~ l₂) :
    r ++ l₁ <+~ r ++ l₂ := by
  obtain ⟨l, hp, hs⟩ := h
  exact ⟨r ++ l, hp.append_left r, hs.append_left r⟩

theorem subperm_app_right {α : Type} {l₁ l₂ : List α} (r : List α) (h : l₁ <+~ l₂) :
    l₁ ++ r <+~ l₂ ++ r := by
  obtain ⟨l, hp, hs⟩ := h
  exact ⟨l ++ r, hp.append_right r, hs.append_right r⟩

theorem hids_filter_sublist (t : Table) (k : String) :
    hids (t.filter (fun e => e.1 ≠ k)) <+ hids t :=
  t.filter_sublist.map _

theorem hid_cons_filter_subperm {t : Table} {m : String} {h : Handle}
    (hl : t.lookup m = some h) :
    h.hid :: hids (t.filter (fun e => e.1 ≠ m)) <+~ hids t := by
  induction t with
  | nil => simp [List.lookup] at hl
  | cons e t ih =>
    obtain ⟨k, v⟩ := e
    by_cases hk : m = k
    · subst hk
      rw [lookup_cons_self] at hl
      cases hl
      rw [List.filter_cons, if_neg (by simp)]
      exact ((hids_filter_sublist t m).cons₂ _).subperm
    · rw [lookup_cons_ne v t hk] at hl
      rw [List.filter_cons, if_pos (by simp; exact fun he => hk he.symm)]
      show h.hid :: v.hid :: hids (t.filter (fun e => e.1 ≠ m)) <+~ v.hid :: hids t
      exact ((List.Perm.swap v.hid h.hid _).subperm).trans ((List.subperm_cons _).mpr (ih hl))

theorem hids_markDone (t : Table) (hid : Nat) : hids (markDone t hid) = hids t := by
  induction t with
  | nil => rfl
  | cons e t ih =>
    simp only [markDone, hids, List.map_cons] at ih ⊢
    by_cases h : e.2.hid = hid <;> simp [h, ih]

/-! ## Waypoint-builder lemmas -/

theorem runSteps_length (sx sy sz : ℚ) (n : ℕ) (cur : Pos) :
    ((runSteps sx sy sz n cur).1).length = n := by
  induction n generalizing cur with
  | zero => rfl
  | succ n ih =>
    show ((⟨cur.x + sx, cur.y + sy, cur.z + sz⟩ : Pos) ::
        (runSteps sx sy sz n ⟨cur.x + sx, cur.y + sy, cur.z + sz⟩).1).length = n + 1
    rw [List.length_cons, ih]

theorem buildSegs_length (offs : List (ℚ × ℚ × ℚ × ℕ)) (cur : Pos) :
    (buildSegs offs cur).length = (offs.map (fun o => o.2.2.2)).sum := by
  induction offs generalizing cur with
  | nil => rfl
  | cons o rest ih =>
    obtain ⟨dx, dy, dz, st⟩ := o
    show ((runSteps (dx / (st : ℚ)) (dy / (st : ℚ)) (dz / (st : ℚ)) st cur).1
        ++ buildSegs rest (runSteps (dx / (st : ℚ)) (dy / (st : ℚ)) (dz / (st : ℚ)) st cur).2).length
      = _
    rw [List.length_append, runSteps_length, ih]
    simp [List.map_cons]

/-- C10: for every start position, `build_waypoints` returns a list whose
first element is the start position and whose length is 1 plus the sum of
the `steps` fields of `WAYPOINT_OFFSETS`, which is 97 for the shipped
offset table (steps 12, 18, 20, 22, 24). -/
theorem build_waypoints_first_and_length (start_pos : Pos) :
    (build_waypoints start_pos).head? = some start_pos ∧
    (build_waypoints start_pos).length = 1 + (WAYPOINT_OFFSETS.map (fun o => o.2.2.2)).sum ∧
    (build_waypoints start_pos).length = 97 := by
  refine ⟨rfl, ?_, ?_⟩ <;>
    simp [build_waypoints, buildSegs_length, WAYPOINT_OFFSETS, Nat.add_comm]

/-! ## C8: drain is a no-op off `route.complete` events of pooled targets -/

/-- C8: draining a frame that is not a `route.complete` event, or whose
`target_id` is not a key of the active pool, leaves the orchestrator state
(in particular the pool) unchanged. -/
theorem drain_noop_off_pooled_complete (s : OrchState) (fields : List (String × Json))
    (h : ∀ tid, getField fields "event" = .str "route.complete" →
        getField fields "target_id" = .str tid → s.active.lookup tid = none) :
    drainOne s (.obj fields) = s := by
  cases hev : getField fields "event" with
  | str k =>
    by_cases hk : k = "route.complete"
    · subst hk
      cases htid : getField fields "target_id" with
      | str tid =>
        have hnone := h tid hev htid
        simp [drainOne, hev, htid, hnone]
      | null => simp [drainOne, hev, htid]
      | bool b => simp [drainOne, hev, htid]
      | num q => simp [drainOne, hev, htid]
      | arr xs => simp [drainOne, hev, htid]
      | obj fs => simp [drainOne, hev, htid]
    · simp [drainOne, hev, hk]
  | null => simp [drainOne, hev]
  | bool b => simp [drainOne, hev]
  | num q => simp [drainOne, hev]
  | arr xs => simp [drainOne, hev]
  | obj fs => simp [drainOne, hev]

theorem drain_noop_off_pooled_complete_witness :
    drainOne ⟨[("CUBE_1", ⟨"c0", none⟩)], none⟩ (.obj [("event", .str "position.update")])
      = (⟨[("CUBE_1", ⟨"c0", none⟩)], none⟩ : OrchState) :=
  drain_noop_off_pooled_complete _ _ (by
    intro tid h1 _
    simp [getField] at h1)

/-! ## C3: the reader on malformed frames -/

/-- C3 failing input: a frame whose text fails JSON parsing is silently
discarded, but a frame that parses to a non-object (here the JSON number
`3`) crashes the reader task: `msg.get("type")` raises `AttributeError`,
which nothing catches, so the reader loop terminates instead of
continuing. -/
theorem reader_crashes_on_nonobject_frame :
    readerStep RState.init .badJson = RState.init ∧
    (readerStep RState.init (.good (.num 3))).crashed = true :=
  ⟨rfl, rfl⟩

/-! ## C1: `stop()` leaves suspended callers suspended -/

/-- C1 failing behavior: with a caller suspended in `send_query` under
`msg_id = "m1"`, calling `Bus.stop()` cancels only the reader task; no
matter what frames arrive afterwards, none is processed, the pending entry
stays in the table with its future unresolved (not done), and no
resolution is ever delivered — the caller is never released, with a
transport-closed failure or anything else. -/
theorem stop_leaves_pending_caller_suspended (fs : List RawFrame) :
    ((runBus (busStop ⟨{ RState.init with pq := [("m1", ⟨0, false⟩)] }, false⟩) fs).r.pq.lookup "m1"
        = some ⟨0, false⟩) ∧
    (runBus (busStop ⟨{ RState.init with pq := [("m1", ⟨0, false⟩)] }, false⟩) fs).r.log = [] := by
  constructor <;> rfl

/-! ## C2: the fill step and already-pooled targets -/

/-- C2 counterexample: with target set `["A"]`, `CONCURRENCY = 2` and
target `A` already pooled (so the fill loop keeps running), both filtered
candidate lists are empty and the code falls back to the full target set,
so `random.choice` returns `A` — a target that is already a key of the
active pool — and the fill iteration issues `get.position` and `set.route`
for it. -/
theorem fill_reissues_pooled_target_cex :
    chosenTarget ["A"] ⟨[("A", ⟨"c0", none⟩)], some "A"⟩ ⟨0, some ("c1", none)⟩ = "A" ∧
    "A" ∈ OrchState.keys ⟨[("A", ⟨"c0", none⟩)], some "A"⟩ ∧
    (OrchState.active ⟨[("A", ⟨"c0", none⟩)], some "A"⟩).length < CONCURRENCY := by
  refine ⟨rfl, ?_, by decide⟩
  simp [OrchState.keys]

/-- C2 amended: whenever at least one target is not yet pooled (in
particular whenever the target set has at least `CONCURRENCY` elements,
since the fill loop only runs with `len(active) < CONCURRENCY`), the fill
step picks — and therefore issues `set.route` for — only targets that are
not already keys of the active pool. -/
theorem fill_issues_only_unpooled (targets : List String) (s : OrchState) (a : FillAttempt)
    (h : ∃ t ∈ targets, t ∉ s.keys) :
    chosenTarget targets s a ∉ s.keys := by
  obtain ⟨t0, ht0, hnp⟩ := h
  have hc2mem : t0 ∈ targets.filter (fun t => decide (t ∉ s.keys)) :=
    List.mem_filter.mpr ⟨ht0, by simpa using hnp⟩
  have hc2ne : targets.filter (fun t => decide (t ∉ s.keys)) ≠ [] :=
    List.ne_nil_of_mem hc2mem
  have hc2f : (targets.filter (fun t => decide (t ∉ s.keys))).isEmpty = false := by
    cases hval : targets.filter (fun t => decide (t ∉ s.keys)) with
    | nil => exact absurd hval hc2ne
    | cons c l => rfl
  have key : ∀ cs : List String, cs ≠ [] → (∀ c ∈ cs, c ∉ s.keys) →
      cs.getD (a.pick % cs.length) "" ∉ s.keys := by
    intro cs hne hall
    have hlt : a.pick % cs.length < cs.length := Nat.mod_lt _ (List.length_pos.mpr hne)
    refine hall _ ?_
    rw [List.getD_eq_getElem cs "" hlt]
    exact List.getElem_mem hlt
  simp only [chosenTarget, candidates]
  split
  next h1 =>
    refine key _ ?_ ?_
    · intro he
      rw [he] at h1
      simp at h1
    · intro c hc
      have hmem := (List.mem_filter.mp hc).2
      simp only [decide_eq_true_eq] at hmem
      exact hmem.1
  next =>
    split
    next h2 =>
      refine key _ hc2ne ?_
      intro c hc
      have hmem := (List.mem_filter.mp hc).2
      simpa using hmem
    next h2 =>
      rw [hc2f] at h2
      exact absurd rfl h2

theorem fill_issues_only_unpooled_witness :
    (∃ t ∈ ["CUBE_1"], t ∉ OrchState.init.keys) ∧
    chosenTarget ["CUBE_1"] OrchState.init ⟨0, none⟩ ∉ OrchState.init.keys :=
  ⟨⟨"CUBE_1", by simp, by simp [OrchState.keys, OrchState.init]⟩,
   fill_issues_only_unpooled _ _ _
     ⟨"CUBE_1", by simp, by simp [OrchState.keys, OrchState.init]⟩⟩

/-! ## C7: `query_position` on its matching response -/

/-- C7: `query_position` raises its remote error (`RuntimeError` carrying
the `error` text) exactly when the response carries a non-empty `error`
field; when `error` is absent or empty it returns the response's `result`
and `t_sim`; and after the reader dispatches the response, the
pending-response table no longer contains the query's `msg_id` (the `pop`
removes it unconditionally). -/
theorem query_position_spec (r : RespFrame) (s : RState) :
    ((∃ e, query_position_outcome r = .remoteErr e) ↔ (∃ e, r.error = some e ∧ e ≠ "")) ∧
    (∀ res, r.result = some res → (r.error = none ∨ r.error = some "") →
        query_position_outcome r = .ok res r.t_sim) ∧
    ((dispatchObj s (respFields r)).pq.lookup r.msg_id = none) := by
  refine ⟨⟨?_, ?_⟩, ?_, ?_⟩
  · rintro ⟨e, he⟩
    cases herr : r.error with
    | none => cases hres : r.result <;> simp [query_position_outcome, herr, hres] at he
    | some e' =>
      by_cases hne : e' = ""
      · subst hne
        cases hres : r.result <;> simp [query_position_outcome, herr, hres] at he
      · exact ⟨e', rfl, hne⟩
  · rintro ⟨e, herr, hne⟩
    exact ⟨e, by simp [query_position_outcome, herr, hne]⟩
  · intro res hres herr
    rcases herr with herr | herr <;> simp [query_position_outcome, herr, hres]
  · have htype : getField (respFields r) "type" = .str "response" := rfl
    have hmid : getField (respFields r) "msg_id" = .str r.msg_id := rfl
    have hpq : (dispatchObj s (respFields r)).pq
        = s.pq.filter (fun e => e.1 ≠ r.msg_id) := by
      simp only [dispatchObj, htype]
      rw [if_pos (by simp)]
      simp only [dispatchResponse, hmid, Json.hashable]
      cases hl : s.pq.lookup r.msg_id with
      | none => simp [popT, hl]
      | some hd => cases hdone : hd.done <;> simp [popT, hl, hdone]
    rw [hpq, lookup_filterOut]

theorem query_position_spec_witness :
    query_position_outcome ⟨"m1", some "boom", none, none⟩ = .remoteErr "boom" ∧
    query_position_outcome ⟨"m2", none, some (.num 5), some (.num 7)⟩
      = .ok (.num 5) (some (.num 7)) ∧
    (dispatchObj { RState.init with pq := [("m1", ⟨0, false⟩)] }
        (respFields ⟨"m1", some "boom", none, none⟩)).pq.lookup "m1" = none := by
  refine ⟨rfl, ?_, ?_⟩
  · exact (query_position_spec ⟨"m2", none, some (.num 5), some (.num 7)⟩ RState.init).2.1
      _ rfl (Or.inl rfl)
  · exact (query_position_spec ⟨"m1", some "boom", none, none⟩
      { RState.init with pq := [("m1", ⟨0, false⟩)] }).2.2

/-! ## C9 and C6: event frames against the pending-ack table -/

/-- C9: an event frame whose `ref_msg_id` matches a pending-ack entry
whose future is already done (resolved or cancelled) still removes that
entry from the table (the `pop` happens before the `done` check), appends
the frame to the event backlog, and resolves nothing.  Pending-ack keys
are `uuid4` strings, hence non-empty, which the `m ≠ ""` hypothesis
records (an empty key would fail the code's `if ref:` truthiness test). -/
theorem ack_done_entry_removed (s : RState) (fields : List (String × Json)) (m : String)
    (h : Handle)
    (hty : getField fields "type" = .str "event")
    (href : getField fields "ref_msg_id" = .str m)
    (hm : m ≠ "")
    (hin : s.pa.lookup m = some h)
    (hdone : h.done = true) :
    (dispatchObj s fields).pa.lookup m = none ∧
    (dispatchObj s fields).events = s.events ++ [.obj fields] ∧
    (dispatchObj s fields).log = s.log := by
  have hred : dispatchObj s fields
      = { s with pa := (popT s.pa m).2, events := s.events ++ [.obj fields] } := by
    simp only [dispatchObj, hty]
    rw [if_neg (by simp), if_pos (by simp)]
    simp [dispatchEvent, href, Json.truthy, Json.hashable, hm, popT, hin, hdone]
  rw [hred]
  exact ⟨lookup_filterOut _ _, rfl, rfl⟩

theorem ack_done_entry_removed_witness :
    (dispatchObj { RState.init with pa := [("m1", ⟨0, true⟩)] }
        [("type", .str "event"), ("ref_msg_id", .str "m1")]).pa.lookup "m1" = none ∧
    (dispatchObj { RState.init with pa := [("m1", ⟨0, true⟩)] }
        [("type", .str "event"), ("ref_msg_id", .str "m1")]).events
      = [.obj [("type", .str "event"), ("ref_msg_id", .str "m1")]] ∧
    (dispatchObj { RState.init with pa := [("m1", ⟨0, true⟩)] }
        [("type", .str "event"), ("ref_msg_id", .str "m1")]).log = [] := by
  have := ack_done_entry_removed { RState.init with pa := [("m1", ⟨0, true⟩)] }
    [("type", .str "event"), ("ref_msg_id", .str "m1")] "m1" ⟨0, true⟩
    rfl rfl (by decide) rfl rfl
  simpa using this

/-- C6 counterexample: an event frame whose `ref_msg_id` matches a
pending-ack entry is NOT always resolved with the frame: if the entry's
future is already done (a caller cancelled while suspended leaves its
cancelled future in the table), the reader pops the entry but appends the
frame to the backlog and resolves nothing, so the claim's second half
fails on this input. -/
theorem event_matching_done_ack_not_resolved_cex :
    (RState.pa { RState.init with pa := [("m1", ⟨0, true⟩)] }).lookup "m1" = some ⟨0, true⟩ ∧
    (dispatchObj { RState.init with pa := [("m1", ⟨0, true⟩)] }
        [("type", .str "event"), ("ref_msg_id", .str "m1")]).log = [] := by
  constructor <;> rfl

/-- C6 amended: for an event frame whose `ref_msg_id` is absent/falsy or
is a string: (a) a falsy (absent) ref appends the frame to the backlog and
resolves nothing; (b) a string ref matching no pending-ack entry does the
same; (c) a string ref matching an entry whose future is not done pops the
entry and resolves it with exactly this frame; (d) a string ref matching
an entry whose future is already done pops the entry and appends the frame
to the backlog instead of resolving it. -/
theorem event_dispatch_cases (s : RState) (fields : List (String × Json))
    (hty : getField fields "type" = .str "event") :
    ((getField fields "ref_msg_id").truthy = false →
        dispatchObj s fields = { s with events := s.events ++ [.obj fields] }) ∧
    (∀ m, getField fields "ref_msg_id" = .str m → m ≠ "" → s.pa.lookup m = none →
        dispatchObj s fields = { s with events := s.events ++ [.obj fields] }) ∧
    (∀ m h, getField fields "ref_msg_id" = .str m → m ≠ "" → s.pa.lookup m = some h →
        h.done = false →
        dispatchObj s fields
          = { s with pa := (popT s.pa m).2, log := s.log ++ [(h.hid, .obj fields)] }) ∧
    (∀ m h, getField fields "ref_msg_id" = .str m → m ≠ "" → s.pa.lookup m = some h →
        h.done = true →
        dispatchObj s fields
          = { s with pa := (popT s.pa m).2, events := s.events ++ [.obj fields] }) := by
  have hev : dispatchObj s fields = dispatchEvent s fields := by
    simp only [dispatchObj, hty]
    rw [if_neg (by simp), if_pos (by simp)]
  refine ⟨?_, ?_, ?_, ?_⟩
  · intro hfalsy
    rw [hev]
    simp [dispatchEvent, hfalsy]
  · intro m href hm hl
    rw [hev]
    simp only [dispatchEvent, href, Json.truthy, Json.hashable, popT]
    rw [if_pos (by simp [hm]), if_pos (by simp)]
    rw [hl]
    rw [filter_eq_of_lookup_none hl]
  · intro m h href hm hl hdone
    rw [hev]
    simp [dispatchEvent, href, Json.truthy, Json.hashable, hm, popT, hl, hdone]
  · intro m h href hm hl hdone
    rw [hev]
    simp [dispatchEvent, href, Json.truthy, Json.hashable, hm, popT, hl, hdone]

theorem event_dispatch_cases_witness :
    dispatchObj RState.init [("type", .str "event")]
      = { RState.init with events := [.obj [("type", .str "event")]] } := by
  simpa using (event_dispatch_cases RState.init [("type", .str "event")] rfl).1 rfl

/-! ## C4: pool size is bounded by CONCURRENCY after every tick -/

theorem insT_length_le {β : Type} (t : List (String × β)) (k : String) (v : β) :
    (insT t k v).length ≤ t.length + 1 := by
  simp only [insT, List.length_cons]
  exact Nat.succ_le_succ (List.length_filter_le _ _)

theorem fillStep_length_le (targets : List String) (s : OrchState) (a : FillAttempt) :
    (fillStep targets s a).active.length ≤ s.active.length + 1 := by
  unfold fillStep
  rcases a.outcome with _ | ⟨cid, ts⟩
  · exact Nat.le_succ _
  · exact insT_length_le _ _ _

theorem fillLoop_length_le (C : Nat) (targets : List String) (as : List FillAttempt)
    (s : OrchState) (h : s.active.length ≤ C) :
    (fillLoop C targets s as).active.length ≤ C := by
  induction as generalizing s with
  | nil => exact h
  | cons a as ih =>
    simp only [fillLoop]
    by_cases hlt : s.active.length < C
    · rw [if_pos hlt]
      exact ih _ (le_trans (fillStep_length_le targets s a) hlt)
    · rw [if_neg hlt]
      exact h

theorem pollPass_length (f : String → Option (Option ℚ)) (s : OrchState) :
    (pollPass f s).active.length = s.active.length := by
  simp [pollPass]

theorem drainOne_length_le (s : OrchState) (ev : Json) :
    (drainOne s ev).active.length ≤ s.active.length := by
  cases ev with
  | obj fields =>
    simp only [drainOne]
    split
    · split
      · split
        · split
          · simp only [popT]
            exact List.length_filter_le _ _
          · exact le_refl _
        · exact le_refl _
      · exact le_refl _
    · exact le_refl _
  | null => exact le_refl _
  | bool b => exact le_refl _
  | num q => exact le_refl _
  | str s' => exact le_refl _
  | arr xs => exact le_refl _

theorem drainFold_length_le (evs : List Json) (s : OrchState) :
    (evs.foldl drainOne s).active.length ≤ s.active.length := by
  induction evs generalizing s with
  | nil => exact le_refl _
  | cons e evs ih =>
    simp only [List.foldl_cons]
    exact le_trans (ih _) (drainOne_length_le s e)

theorem tick_length_le (C : Nat) (targets : List String) (s : OrchState) (o : TickOracle)
    (h : s.active.length ≤ C) : (tick C targets s o).active.length ≤ C := by
  unfold tick
  refine le_trans (drainFold_length_le _ _) ?_
  rw [pollPass_length]
  exact fillLoop_length_le C targets o.attempts s h

/-- C4: for every `CONCURRENCY ≥ 1` and non-empty target set, starting
from the empty pool, the active pool's size is at most `CONCURRENCY` after
every completed tick (fill, poll, drain, pause) of the orchestrator
loop. -/
theorem pool_size_bounded (C : Nat) (targets : List String) (os : List TickOracle)
    (hC : 1 ≤ C) (ht : targets ≠ []) :
    (runTicks C targets OrchState.init os).active.length ≤ C := by
  have main : ∀ s : OrchState, s.active.length ≤ C →
      (runTicks C targets s os).active.length ≤ C := by
    induction os with
    | nil => exact fun s h => h
    | cons o os ih =>
      intro s h
      simp only [runTicks, List.foldl_cons]
      exact ih _ (tick_length_le C targets s o h)
  exact main OrchState.init (Nat.zero_le C)

theorem pool_size_bounded_witness :
    1 ≤ CONCURRENCY ∧ TARGETS ≠ [] ∧
    (runTicks CONCURRENCY TARGETS OrchState.init
        [⟨[⟨0, some ("c1", none)⟩, ⟨1, some ("c2", none)⟩, ⟨2, some ("c3", none)⟩],
          fun _ => none, []⟩]).active.length ≤ CONCURRENCY :=
  ⟨by decide, by decide, pool_size_bounded _ _ _ (by decide) (by decide)⟩

/-! ## C5: invariant preservation for the pending tables -/

theorem hid_mem_hids {t : Table} {m : String} {h : Handle} (hm : (m, h) ∈ t) :
    h.hid ∈ hids t :=
  List.mem_map.mpr ⟨(m, h), hm, rfl⟩

theorem mem_stateHids_log {s : RState} {x : Nat} (hx : x ∈ s.log.map Prod.fst) :
    x ∈ stateHids s :=
  List.mem_append_left _ (List.mem_append_left _ hx)

theorem mem_stateHids_pq {s : RState} {x : Nat} (hx : x ∈ hids s.pq) :
    x ∈ stateHids s :=
  List.mem_append_left _ (List.mem_append_right _ hx)

theorem mem_stateHids_pa {s : RState} {x : Nat} (hx : x ∈ hids s.pa) :
    x ∈ stateHids s :=
  List.mem_append_right _ hx

theorem mem_hids_filter {t : Table} {k : String} {x : Nat}
    (hx : x ∈ hids (t.filter (fun e => e.1 ≠ k))) : x ∈ hids t :=
  (hids_filter_sublist t k).subset hx

/-- Resolving a not-done pending-query handle preserves the invariant and
introduces no new handle identity. -/
theorem inv_resolve_pq (Rq Ra : Nat → String → Prop) (s : RState)
    (fields : List (String × Json)) (m : String) (h : Handle)
    (hInv : Inv Rq Ra s) (hin : s.pq.lookup m = some h)
    (hmid : getField fields "msg_id" = .str m) :
    Inv Rq Ra { s with pq := s.pq.filter (fun e => e.1 ≠ m),
                       log := s.log ++ [(h.hid, .obj fields)] } ∧
    (∀ x, x ∈ stateHids { s with pq := s.pq.filter (fun e => e.1 ≠ m),
                                 log := s.log ++ [(h.hid, .obj fields)] } →
      x ∈ stateHids s) := by
  have hmem : (m, h) ∈ s.pq := mem_of_lookup hin
  have hhid : h.hid ∈ hids s.pq := hid_mem_hids hmem
  constructor
  · refine ⟨?_, ?_, ?_, ?_⟩
    · intro p hp
      exact hInv.hq p (List.mem_filter.mp hp).1
    · exact fun p hp => hInv.ha p hp
    · intro p hp
      rcases List.mem_append.mp hp with hp | hp
      · exact hInv.hlog p hp
      · rcases List.mem_singleton.mp hp with rfl
        exact Or.inl ⟨m, fields, rfl, hInv.hq (m, h) hmem, hmid⟩
    · have KL := hid_cons_filter_subperm hin
      have hshape : stateHids { s with pq := s.pq.filter (fun e => e.1 ≠ m),
                                       log := s.log ++ [(h.hid, .obj fields)] }
          = s.log.map Prod.fst
            ++ ((h.hid :: hids (s.pq.filter (fun e => e.1 ≠ m))) ++ hids s.pa) := by
        simp [stateHids, List.append_assoc]
      have htgt : stateHids s = s.log.map Prod.fst ++ (hids s.pq ++ hids s.pa) := by
        simp [stateHids, List.append_assoc]
      rw [hshape]
      refine subperm_nodup (subperm_app_left _ (subperm_app_right _ KL)) ?_
      rw [← htgt]
      exact hInv.nodupHids
  · intro x hx
    simp only [stateHids, List.map_append, List.map_cons, List.map_nil, List.mem_append,
      List.mem_singleton] at hx ⊢
    rcases hx with ((hx | hx) | hx) | hx
    · exact Or.inl (Or.inl hx)
    · exact Or.inl (Or.inr (hx ▸ hhid))
    · exact Or.inl (Or.inr (mem_hids_filter hx))
    · exact Or.inr hx

/-- Resolving a not-done pending-ack handle: symmetric to
`inv_resolve_pq`, against `ref_msg_id`. -/
theorem inv_resolve_pa (Rq Ra : Nat → String → Prop) (s : RState)
    (fields : List (String × Json)) (m : String) (h : Handle)
    (hInv : Inv Rq Ra s) (hin : s.pa.lookup m = some h)
    (href : getField fields "ref_msg_id" = .str m) :
    Inv Rq Ra { s with pa := s.pa.filter (fun e => e.1 ≠ m),
                       log := s.log ++ [(h.hid, .obj fields)] } ∧
    (∀ x, x ∈ stateHids { s with pa := s.pa.filter (fun e => e.1 ≠ m),
                                 log := s.log ++ [(h.hid, .obj fields)] } →
      x ∈ stateHids s) := by
  have hmem : (m, h) ∈ s.pa := mem_of_lookup hin
  have hhid : h.hid ∈ hids s.pa := hid_mem_hids hmem
  constructor
  · refine ⟨?_, ?_, ?_, ?_⟩
    · exact fun p hp => hInv.hq p hp
    · intro p hp
      exact hInv.ha p (List.mem_filter.mp hp).1
    · intro p hp
      rcases List.mem_append.mp hp with hp | hp
      · exact hInv.hlog p hp
      · rcases List.mem_singleton.mp hp with rfl
        exact Or.inr ⟨m, fields, rfl, hInv.ha (m, h) hmem, href⟩
    · have KL := hid_cons_filter_subperm hin
      have hshape : stateHids { s with pa := s.pa.filter (fun e => e.1 ≠ m),
                                       log := s.log ++ [(h.hid, .obj fields)] }
          = (s.log.map Prod.fst ++ [h.hid] ++ hids s.pq)
            ++ hids (s.pa.filter (fun e => e.1 ≠ m)) := by
        simp [stateHids, List.append_assoc]
      rw [hshape]
      -- rearrange so that the pa-side subperm applies
      have hperm : (s.log.map Prod.fst ++ [h.hid] ++ hids s.pq)
            ++ hids (s.pa.filter (fun e => e.1 ≠ m))
          ~ (s.log.map Prod.fst ++ hids s.pq)
            ++ (h.hid :: hids (s.pa.filter (fun e => e.1 ≠ m))) := by
        calc (s.log.map Prod.fst ++ [h.hid] ++ hids s.pq)
              ++ hids (s.pa.filter (fun e => e.1 ≠ m))
            = s.log.map Prod.fst
              ++ ([h.hid] ++ (hids s.pq ++ hids (s.pa.filter (fun e => e.1 ≠ m)))) := by
              simp [List.append_assoc]
          _ ~ s.log.map Prod.fst
              ++ (hids s.pq ++ ([h.hid] ++ hids (s.pa.filter (fun e => e.1 ≠ m)))) := by
              exact List.Perm.append_left _ (List.perm_append_comm_assoc _ _ _)
          _ = (s.log.map Prod.fst ++ hids s.pq)
              ++ (h.hid :: hids (s.pa.filter (fun e => e.1 ≠ m))) := by
              simp [List.append_assoc]
      refine (hperm.nodup_iff).mpr ?_
      refine subperm_nodup (subperm_app_left _ (hid_cons_filter_subperm hin)) ?_
      have : stateHids s = (s.log.map Prod.fst ++ hids s.pq) ++ hids s.pa := by
        simp [stateHids]
      rw [← this]
      exact hInv.nodupHids
  · intro x hx
    simp only [stateHids, List.map_append, List.map_cons, List.map_nil, List.mem_append,
      List.mem_singleton] at hx ⊢
    rcases hx with ((hx | hx) | hx) | hx
    · exact Or.inl (Or.inl hx)
    · exact Or.inr (hx ▸ hhid)
    · exact Or.inl (Or.inr hx)
    · exact Or.inr (mem_hids_filter hx)

/-- Popping a pending-query entry without resolving preserves the
invariant. -/
theorem inv_shrink_pq (Rq Ra : Nat → String → Prop) (s : RState) (m : String)
    (hInv : Inv Rq Ra s) :
    Inv Rq Ra { s with pq := s.pq.filter (fun e => e.1 ≠ m) } ∧
    (∀ x, x ∈ stateHids { s with pq := s.pq.filter (fun e => e.1 ≠ m) } →
      x ∈ stateHids s) := by
  constructor
  · refine ⟨?_, fun p hp => hInv.ha p hp, fun p hp => hInv.hlog p hp, ?_⟩
    · intro p hp
      exact hInv.hq p (List.mem_filter.mp hp).1
    · refine hInv.nodupHids.sublist ?_
      exact ((hids_filter_sublist s.pq m).append_left _).append_right _
  · intro x hx
    simp only [stateHids, List.mem_append] at hx ⊢
    rcases hx with (hx | hx) | hx
    · exact Or.inl (Or.inl hx)
    · exact Or.inl (Or.inr (mem_hids_filter hx))
    · exact Or.inr hx

/-- Popping a pending-ack entry without resolving (and appending the frame
to the backlog) preserves the invariant. -/
theorem inv_shrink_pa (Rq Ra : Nat → String → Prop) (s : RState) (m : String) (evs : List Json)
    (hInv : Inv Rq Ra s) :
    Inv Rq Ra { s with pa := s.pa.filter (fun e => e.1 ≠ m), events := evs } ∧
    (∀ x, x ∈ stateHids { s with pa := s.pa.filter (fun e => e.1 ≠ m), events := evs } →
      x ∈ stateHids s) := by
  constructor
  · refine ⟨fun p hp => hInv.hq p hp, ?_, fun p hp => hInv.hlog p hp, ?_⟩
    · intro p hp
      exact hInv.ha p (List.mem_filter.mp hp).1
    · refine hInv.nodupHids.sublist ?_
      exact (hids_filter_sublist s.pa m).append_left _
  · intro x hx
    simp only [stateHids, List.mem_append] at hx ⊢
    rcases hx with (hx | hx) | hx
    · exact Or.inl (Or.inl hx)
    · exact Or.inl (Or.inr hx)
    · exact Or.inr (mem_hids_filter hx)

/-- Appending to the event backlog touches no table and no log. -/
theorem inv_set_events (Rq Ra : Nat → String → Prop) (s : RState) (evs : List Json)
    (hInv : Inv Rq Ra s) :
    Inv Rq Ra { s with events := evs } ∧
    (∀ x, x ∈ stateHids { s with events := evs } → x ∈ stateHids s) :=
  ⟨⟨hInv.hq, hInv.ha, hInv.hlog, hInv.nodupHids⟩, fun _ hx => hx⟩

/-- A reader crash touches no table and no log. -/
theorem inv_set_crashed (Rq Ra : Nat → String → Prop) (s : RState)
    (hInv : Inv Rq Ra s) :
    Inv Rq Ra { s with crashed := true } ∧
    (∀ x, x ∈ stateHids { s with crashed := true } → x ∈ stateHids s) :=
  ⟨⟨hInv.hq, hInv.ha, hInv.hlog, hInv.nodupHids⟩, fun _ hx => hx⟩

/-- The `response` branch preserves the invariant. -/
theorem inv_dispatchResponse (Rq Ra : Nat → String → Prop) (s : RState)
    (fields : List (String × Json)) (hInv : Inv Rq Ra s) :
    Inv Rq Ra (dispatchResponse s fields) ∧
    (∀ x, x ∈ stateHids (dispatchResponse s fields) → x ∈ stateHids s) := by
  cases hmid : getField fields "msg_id" with
  | str m =>
    cases hl : s.pq.lookup m with
    | none =>
      have hred : dispatchResponse s fields
          = { s with pq := s.pq.filter (fun e => e.1 ≠ m) } := by
        simp [dispatchResponse, hmid, Json.hashable, popT, hl]
      rw [hred]
      exact inv_shrink_pq Rq Ra s m hInv
    | some h =>
      cases hdone : h.done with
      | true =>
        have hred : dispatchResponse s fields
            = { s with pq := s.pq.filter (fun e => e.1 ≠ m) } := by
          simp [dispatchResponse, hmid, Json.hashable, popT, hl, hdone]
        rw [hred]
        exact inv_shrink_pq Rq Ra s m hInv
      | false =>
        have hred : dispatchResponse s fields
            = { s with pq := s.pq.filter (fun e => e.1 ≠ m),
                       log := s.log ++ [(h.hid, .obj fields)] } := by
          simp [dispatchResponse, hmid, Json.hashable, popT, hl, hdone]
        rw [hred]
        exact inv_resolve_pq Rq Ra s fields m h hInv hl hmid
  | null =>
    have hred : dispatchResponse s fields = s := by
      simp [dispatchResponse, hmid, Json.hashable]
    rw [hred]
    exact ⟨hInv, fun _ hx => hx⟩
  | bool b =>
    have hred : dispatchResponse s fields = s := by
      simp [dispatchResponse, hmid, Json.hashable]
    rw [hred]
    exact ⟨hInv, fun _ hx => hx⟩
  | num q =>
    have hred : dispatchResponse s fields = s := by
      simp [dispatchResponse, hmid, Json.hashable]
    rw [hred]
    exact ⟨hInv, fun _ hx => hx⟩
  | arr xs =>
    have hred : dispatchResponse s fields = { s with crashed := true } := by
      simp [dispatchResponse, hmid, Json.hashable]
    rw [hred]
    exact inv_set_crashed Rq Ra s hInv
  | obj fs =>
    have hred : dispatchResponse s fields = { s with crashed := true } := by
      simp [dispatchResponse, hmid, Json.hashable]
    rw [hred]
    exact inv_set_crashed Rq Ra s hInv

/-- The `event` branch preserves the invariant. -/
theorem inv_dispatchEvent (Rq Ra : Nat → String → Prop) (s : RState)
    (fields : List (String × Json)) (hInv : Inv Rq Ra s) :
    Inv Rq Ra (dispatchEvent s fields) ∧
    (∀ x, x ∈ stateHids (dispatchEvent s fields) → x ∈ stateHids s) := by
  cases href : getField fields "ref_msg_id" with
  | null =>
    have hred : dispatchEvent s fields
        = { s with events := s.events ++ [.obj fields] } := by
      simp [dispatchEvent, href, Json.truthy]
    rw [hred]
    exact inv_set_events Rq Ra s _ hInv
  | bool b =>
    cases b with
    | false =>
      have hred : dispatchEvent s fields
          = { s with events := s.events ++ [.obj fields] } := by
        simp [dispatchEvent, href, Json.truthy]
      rw [hred]
      exact inv_set_events Rq Ra s _ hInv
    | true =>
      have hred : dispatchEvent s fields
          = { s with events := s.events ++ [.obj fields] } := by
        simp [dispatchEvent, href, Json.truthy, Json.hashable]
      rw [hred]
      exact inv_set_events Rq Ra s _ hInv
  | num q =>
    by_cases hq : q = 0
    · have hred : dispatchEvent s fields
          = { s with events := s.events ++ [.obj fields] } := by
        simp [dispatchEvent, href, Json.truthy, hq]
      rw [hred]
      exact inv_set_events Rq Ra s _ hInv
    · have hred : dispatchEvent s fields
          = { s with events := s.events ++ [.obj fields] } := by
        simp [dispatchEvent, href, Json.truthy, Json.hashable, hq]
      rw [hred]
      exact inv_set_events Rq Ra s _ hInv
  | str m =>
    by_cases hm : m = ""
    · have hred : dispatchEvent s fields
          = { s with events := s.events ++ [.obj fields] } := by
        simp [dispatchEvent, href, Json.truthy, hm]
      rw [hred]
      exact inv_set_events Rq Ra s _ hInv
    · cases hl : s.pa.lookup m with
      | none =>
        have hred : dispatchEvent s fields
            = { s with pa := s.pa.filter (fun e => e.1 ≠ m),
                       events := s.events ++ [.obj fields] } := by
          simp [dispatchEvent, href, Json.truthy, Json.hashable, hm, popT, hl]
        rw [hred]
        exact inv_shrink_pa Rq Ra s m _ hInv
      | some h =>
        cases hdone : h.done with
        | true =>
          have hred : dispatchEvent s fields
              = { s with pa := s.pa.filter (fun e => e.1 ≠ m),
                         events := s.events ++ [.obj fields] } := by
            simp [dispatchEvent, href, Json.truthy, Json.hashable, hm, popT, hl, hdone]
          rw [hred]
          exact inv_shrink_pa Rq Ra s m _ hInv
        | false =>
          have hred : dispatchEvent s fields
              = { s with pa := s.pa.filter (fun e => e.1 ≠ m),
                         log := s.log ++ [(h.hid, .obj fields)] } := by
            simp [dispatchEvent, href, Json.truthy, Json.hashable, hm, popT, hl, hdone]
          rw [hred]
          exact inv_resolve_pa Rq Ra s fields m h hInv hl href
  | arr xs =>
    cases xs with
    | nil =>
      have hred : dispatchEvent s fields
          = { s with events := s.events ++ [.obj fields] } := by
        simp [dispatchEvent, href, Json.truthy]
      rw [hred]
      exact inv_set_events Rq Ra s _ hInv
    | cons y ys =>
      have hred : dispatchEvent s fields = { s with crashed := true } := by
        simp [dispatchEvent, href, Json.truthy, Json.hashable]
      rw [hred]
      exact inv_set_crashed Rq Ra s hInv
  | obj fs =>
    cases fs with
    | nil =>
      have hred : dispatchEvent s fields
          = { s with events := s.events ++ [.obj fields] } := by
        simp [dispatchEvent, href, Json.truthy]
      rw [hred]
      exact inv_set_events Rq Ra s _ hInv
    | cons y ys =>
      have hred : dispatchEvent s fields = { s with crashed := true } := by
        simp [dispatchEvent, href, Json.truthy, Json.hashable]
      rw [hred]
      exact inv_set_crashed Rq Ra s hInv

/-- Dispatching any decoded object preserves the invariant. -/
theorem inv_dispatchObj (Rq Ra : Nat → String → Prop) (s : RState)
    (fields : List (String × Json)) (hInv : Inv Rq Ra s) :
    Inv Rq Ra (dispatchObj s fields) ∧
    (∀ x, x ∈ stateHids (dispatchObj s fields) → x ∈ stateHids s) := by
  cases hty : getField fields "type" with
  | str t =>
    by_cases ht1 : t = "response"
    · have hred : dispatchObj s fields = dispatchResponse s fields := by
        simp [dispatchObj, hty, ht1]
      rw [hred]
      exact inv_dispatchResponse Rq Ra s fields hInv
    · by_cases ht2 : t = "event"
      · have hred : dispatchObj s fields = dispatchEvent s fields := by
          simp [dispatchObj, hty, ht1, ht2]
        rw [hred]
        exact inv_dispatchEvent Rq Ra s fields hInv
      · have hred : dispatchObj s fields = s := by
          simp [dispatchObj, hty, ht1, ht2]
        rw [hred]
        exact ⟨hInv, fun _ hx => hx⟩
  | null =>
    have hred : dispatchObj s fields = s := by simp [dispatchObj, hty]
    rw [hred]
    exact ⟨hInv, fun _ hx => hx⟩
  | bool b =>
    have hred : dispatchObj s fields = s := by simp [dispatchObj, hty]
    rw [hred]
    exact ⟨hInv, fun _ hx => hx⟩
  | num q =>
    have hred : dispatchObj s fields = s := by simp [dispatchObj, hty]
    rw [hred]
    exact ⟨hInv, fun _ hx => hx⟩
  | arr xs =>
    have hred : dispatchObj s fields = s := by simp [dispatchObj, hty]
    rw [hred]
    exact ⟨hInv, fun _ hx => hx⟩
  | obj fs =>
    have hred : dispatchObj s fields = s := by simp [dispatchObj, hty]
    rw [hred]
    exact ⟨hInv, fun _ hx => hx⟩

/-- One reader-loop iteration preserves the invariant. -/
theorem inv_readerStep (Rq Ra : Nat → String → Prop) (s : RState) (f : RawFrame)
    (hInv : Inv Rq Ra s) :
    Inv Rq Ra (readerStep s f) ∧
    (∀ x, x ∈ stateHids (readerStep s f) → x ∈ stateHids s) := by
  unfold readerStep
  by_cases hc : s.crashed = true
  · rw [if_pos hc]
    exact ⟨hInv, fun _ hx => hx⟩
  · rw [if_neg hc]
    cases f with
    | badJson => exact ⟨hInv, fun _ hx => hx⟩
    | good j =>
      cases j with
      | obj fields => exact inv_dispatchObj Rq Ra s fields hInv
      | null => exact inv_set_crashed Rq Ra s hInv
      | bool b => exact inv_set_crashed Rq Ra s hInv
      | num q => exact inv_set_crashed Rq Ra s hInv
      | str s' => exact inv_set_crashed Rq Ra s hInv
      | arr xs => exact inv_set_crashed Rq Ra s hInv

/-- Registering a fresh future in the pending-query table preserves the
invariant; the only new handle identity is the registered one. -/
theorem inv_reg_q (Rq Ra : Nat → String → Prop) (s : RState) (m : String) (hid : Nat)
    (hInv : Inv Rq Ra s) (hR : Rq hid m) (hfresh : hid ∉ stateHids s) :
    Inv Rq Ra { s with pq := insT s.pq m ⟨hid, false⟩ } ∧
    (∀ x, x ∈ stateHids { s with pq := insT s.pq m ⟨hid, false⟩ } →
      x ∈ stateHids s ∨ x = hid) := by
  simp only [stateHids, List.mem_append, not_or] at hfresh
  obtain ⟨⟨hf1, hf2⟩, hf3⟩ := hfresh
  have hshape : stateHids { s with pq := insT s.pq m ⟨hid, false⟩ }
      = s.log.map Prod.fst
        ++ hid :: (hids (s.pq.filter (fun e => e.1 ≠ m)) ++ hids s.pa) := by
    simp [stateHids, insT, hids, List.append_assoc]
  constructor
  · refine ⟨?_, fun p hp => hInv.ha p hp, fun p hp => hInv.hlog p hp, ?_⟩
    · intro p hp
      rcases List.mem_cons.mp hp with rfl | hp
      · exact hR
      · exact hInv.hq p (List.mem_filter.mp hp).1
    · rw [hshape]
      have hnd0 : (s.log.map Prod.fst ++ (hids s.pq ++ hids s.pa)).Nodup := by
        have := hInv.nodupHids
        simpa [stateHids, List.append_assoc] using this
      have hndF : (s.log.map Prod.fst
          ++ (hids (s.pq.filter (fun e => e.1 ≠ m)) ++ hids s.pa)).Nodup :=
        hnd0.sublist
          ((((hids_filter_sublist s.pq m).append_right _).append_left _))
      have hmem : hid ∉ s.log.map Prod.fst
          ++ (hids (s.pq.filter (fun e => e.1 ≠ m)) ++ hids s.pa) := by
        simp only [List.mem_append, not_or]
        exact ⟨hf1, fun hx => hf2 (mem_hids_filter hx), hf3⟩
      have hnew : (hid :: (s.log.map Prod.fst
          ++ (hids (s.pq.filter (fun e => e.1 ≠ m)) ++ hids s.pa))).Nodup :=
        List.nodup_cons.mpr ⟨hmem, hndF⟩
      exact (List.perm_middle.nodup_iff).mpr hnew
  · intro x hx
    rw [hshape] at hx
    simp only [List.mem_append, List.mem_cons] at hx
    rcases hx with hx | hx | hx | hx
    · exact Or.inl (mem_stateHids_log hx)
    · exact Or.inr hx
    · exact Or.inl (mem_stateHids_pq (mem_hids_filter hx))
    · exact Or.inl (mem_stateHids_pa hx)

/-- Registering a fresh future in the pending-ack table: symmetric. -/
theorem inv_reg_a (Rq Ra : Nat → String → Prop) (s : RState) (m : String) (hid : Nat)
    (hInv : Inv Rq Ra s) (hR : Ra hid m) (hfresh : hid ∉ stateHids s) :
    Inv Rq Ra { s with pa := insT s.pa m ⟨hid, false⟩ } ∧
    (∀ x, x ∈ stateHids { s with pa := insT s.pa m ⟨hid, false⟩ } →
      x ∈ stateHids s ∨ x = hid) := by
  simp only [stateHids, List.mem_append, not_or] at hfresh
  obtain ⟨⟨hf1, hf2⟩, hf3⟩ := hfresh
  have hshape : stateHids { s with pa := insT s.pa m ⟨hid, false⟩ }
      = (s.log.map Prod.fst ++ hids s.pq)
        ++ hid :: hids (s.pa.filter (fun e => e.1 ≠ m)) := by
    simp [stateHids, insT, hids]
  constructor
  · refine ⟨fun p hp => hInv.hq p hp, ?_, fun p hp => hInv.hlog p hp, ?_⟩
    · intro p hp
      rcases List.mem_cons.mp hp with rfl | hp
      · exact hR
      · exact hInv.ha p (List.mem_filter.mp hp).1
    · rw [hshape]
      have hnd0 : ((s.log.map Prod.fst ++ hids s.pq) ++ hids s.pa).Nodup := by
        have := hInv.nodupHids
        simpa [stateHids] using this
      have hndF : ((s.log.map Prod.fst ++ hids s.pq)
          ++ hids (s.pa.filter (fun e => e.1 ≠ m))).Nodup :=
        hnd0.sublist ((hids_filter_sublist s.pa m).append_left _)
      have hmem : hid ∉ (s.log.map Prod.fst ++ hids s.pq)
          ++ hids (s.pa.filter (fun e => e.1 ≠ m)) := by
        simp only [List.mem_append, not_or]
        exact ⟨⟨hf1, hf2⟩, fun hx => hf3 (mem_hids_filter hx)⟩
      have hnew : (hid :: ((s.log.map Prod.fst ++ hids s.pq)
          ++ hids (s.pa.filter (fun e => e.1 ≠ m)))).Nodup :=
        List.nodup_cons.mpr ⟨hmem, hndF⟩
      exact (List.perm_middle.nodup_iff).mpr hnew
  · intro x hx
    rw [hshape] at hx
    simp only [List.mem_append, List.mem_cons] at hx
    rcases hx with (hx | hx) | hx | hx
    · exact Or.inl (mem_stateHids_log hx)
    · exact Or.inl (mem_stateHids_pq hx)
    · exact Or.inr hx
    · exact Or.inl (mem_stateHids_pa (mem_hids_filter hx))

/-- Cancelling a suspended caller marks its future done in place: keys and
handle identities are untouched, so the invariant is preserved. -/
theorem inv_cancel (Rq Ra : Nat → String → Prop) (s : RState) (hid : Nat)
    (hInv : Inv Rq Ra s) :
    Inv Rq Ra { s with pq := markDone s.pq hid, pa := markDone s.pa hid } ∧
    (∀ x, x ∈ stateHids { s with pq := markDone s.pq hid, pa := markDone s.pa hid } →
      x ∈ stateHids s) := by
  have hkey : ∀ (t : Table) (p : String × Handle), p ∈ markDone t hid →
      ∃ h0 : Handle, (p.1, h0) ∈ t ∧ h0.hid = p.2.hid := by
    intro t p hp
    rcases List.mem_map.mp hp with ⟨q, hq, hqe⟩
    by_cases hcond : q.2.hid = hid
    · rw [if_pos hcond] at hqe
      subst hqe
      exact ⟨q.2, by simpa using hq, rfl⟩
    · rw [if_neg hcond] at hqe
      subst hqe
      exact ⟨q.2, by simpa using hq, rfl⟩
  have hsame : stateHids { s with pq := markDone s.pq hid, pa := markDone s.pa hid }
      = stateHids s := by
    simp [stateHids, hids_markDone]
  constructor
  · refine ⟨?_, ?_, fun p hp => hInv.hlog p hp, ?_⟩
    · intro p hp
      obtain ⟨h0, hmem0, hhid0⟩ := hkey s.pq p hp
      have := hInv.hq (p.1, h0) hmem0
      rw [hhid0] at this
      exact this
    · intro p hp
      obtain ⟨h0, hmem0, hhid0⟩ := hkey s.pa p hp
      have := hInv.ha (p.1, h0) hmem0
      rw [hhid0] at this
      exact this
    · rw [hsame]
      exact hInv.nodupHids
  · intro x hx
    rw [hsame] at hx
    exact hx

/-- `Inv` holds after any finite interleaving of reader dispatches,
registrations of fresh futures, and cancellations, provided the registered
handle identities are distinct and fresh. -/
theorem inv_runActions (Rq Ra : Nat → String → Prop) (as : List Action) (s : RState)
    (hInv : Inv Rq Ra s)
    (hnd : (regIds as).Nodup)
    (hfresh : ∀ hid ∈ regIds as, hid ∉ stateHids s)
    (hQ : ∀ m hid, Action.regQuery m hid ∈ as → Rq hid m)
    (hA : ∀ m hid, Action.regAck m hid ∈ as → Ra hid m) :
    Inv Rq Ra (runActions s as) := by
  induction as generalizing s with
  | nil => exact hInv
  | cons a as ih =>
    show Inv Rq Ra (runActions (actionStep s a) as)
    cases a with
    | frame f =>
      obtain ⟨hInv', hsub⟩ := inv_readerStep Rq Ra s f hInv
      refine ih (readerStep s f) hInv' hnd ?_ ?_ ?_
      · exact fun hid hh hx => hfresh hid hh (hsub _ hx)
      · exact fun m hid hh => hQ m hid (List.mem_cons_of_mem _ hh)
      · exact fun m hid hh => hA m hid (List.mem_cons_of_mem _ hh)
    | regQuery m hid =>
      have hcons : regIds (Action.regQuery m hid :: as) = hid :: regIds as := rfl
      rw [hcons] at hnd hfresh
      have hR := hQ m hid (List.mem_cons_self _ _)
      have hfr : hid ∉ stateHids s := hfresh hid (List.mem_cons_self _ _)
      obtain ⟨hInv', hsub⟩ := inv_reg_q Rq Ra s m hid hInv hR hfr
      refine ih _ hInv' (List.Nodup.of_cons hnd) ?_ ?_ ?_
      · intro hid' hh hx
        rcases hsub hid' hx with hx' | rfl
        · exact hfresh hid' (List.mem_cons_of_mem _ hh) hx'
        · exact (List.nodup_cons.mp hnd).1 hh
      · exact fun m' hid' hh => hQ m' hid' (List.mem_cons_of_mem _ hh)
      · exact fun m' hid' hh => hA m' hid' (List.mem_cons_of_mem _ hh)
    | regAck m hid =>
      have hcons : regIds (Action.regAck m hid :: as) = hid :: regIds as := rfl
      rw [hcons] at hnd hfresh
      have hR := hA m hid (List.mem_cons_self _ _)
      have hfr : hid ∉ stateHids s := hfresh hid (List.mem_cons_self _ _)
      obtain ⟨hInv', hsub⟩ := inv_reg_a Rq Ra s m hid hInv hR hfr
      refine ih _ hInv' (List.Nodup.of_cons hnd) ?_ ?_ ?_
      · intro hid' hh hx
        rcases hsub hid' hx with hx' | rfl
        · exact hfresh hid' (List.mem_cons_of_mem _ hh) hx'
        · exact (List.nodup_cons.mp hnd).1 hh
      · exact fun m' hid' hh => hQ m' hid' (List.mem_cons_of_mem _ hh)
      · exact fun m' hid' hh => hA m' hid' (List.mem_cons_of_mem _ hh)
    | cancel hid =>
      obtain ⟨hInv', hsub⟩ := inv_cancel Rq Ra s hid hInv
      refine ih _ hInv' hnd ?_ ?_ ?_
      · exact fun hid' hh hx => hfresh hid' hh (hsub _ hx)
      · exact fun m' hid' hh => hQ m' hid' (List.mem_cons_of_mem _ hh)
      · exact fun m' hid' hh => hA m' hid' (List.mem_cons_of_mem _ hh)

/-- C5: for every interleaving of inbound response/event frames with
registrations (of distinct fresh futures, as `send_query` /
`send_cmd_wait_ack` create them) and cancellations, starting from a fresh
bus: every completion handle is resolved (`set_result`) at most once, and
a handle registered under message id `m` is resolved only by a frame whose
correlation id — `msg_id` for responses, `ref_msg_id` for events — equals
`m` exactly. -/
theorem handle_resolution_correct (as : List Action) (hnd : (regIds as).Nodup) :
    (((runActions RState.init as).log.map Prod.fst).Nodup) ∧
    (∀ p ∈ (runActions RState.init as).log,
      (∃ m fields, p.2 = Json.obj fields ∧ (p.1, m) ∈ regQs as ∧
          getField fields "msg_id" = .str m) ∨
      (∃ m fields, p.2 = Json.obj fields ∧ (p.1, m) ∈ regAs as ∧
          getField fields "ref_msg_id" = .str m)) := by
  have hinit : Inv (fun hid m => (hid, m) ∈ regQs as)
      (fun hid m => (hid, m) ∈ regAs as) RState.init := by
    refine ⟨?_, ?_, ?_, ?_⟩
    · intro p hp
      cases hp
    · intro p hp
      cases hp
    · intro p hp
      cases hp
    · simp [stateHids, hids, RState.init]
  have hInv := inv_runActions (fun hid m => (hid, m) ∈ regQs as)
    (fun hid m => (hid, m) ∈ regAs as) as RState.init hinit hnd
    (by intro hid _ hx; simp [stateHids, hids, RState.init] at hx)
    (fun m hid hh => List.mem_filterMap.mpr ⟨Action.regQuery m hid, hh, rfl⟩)
    (fun m hid hh => List.mem_filterMap.mpr ⟨Action.regAck m hid, hh, rfl⟩)
  constructor
  · have := hInv.nodupHids
    simp only [stateHids] at this
    exact ((this.of_append_left).of_append_left)
  · intro p hp
    exact hInv.hlog p hp

theorem handle_resolution_correct_witness :
    ((regIds [Action.regQuery "m1" 0, Action.regAck "m2" 1,
        Action.frame (.good (.obj [("type", Json.str "response"),
          ("msg_id", Json.str "m1")]))]).Nodup) ∧
    (((runActions RState.init [Action.regQuery "m1" 0, Action.regAck "m2" 1,
        Action.frame (.good (.obj [("type", Json.str "response"),
          ("msg_id", Json.str "m1")]))]).log.map Prod.fst).Nodup) :=
  ⟨by decide, (handle_resolution_correct _ (by decide)).1⟩

end PWAirport
